import Mathlib

/-
Verification of the quote manager (src/src/main.py): the store data model,
loading, querying, duplicate detection and pruning, against the repository
specification.
-/

set_option autoImplicit false

namespace QuoteApp

/-- Value stored under each identifier key in the JSON store:
the object standing for one quote, holding its text and author. -/
structure QV where
  quote : String
  author : String
deriving DecidableEq, Repr

/-- The store file's JSON object: a mapping from identifier keys to quote
values, in insertion order. Per the documented store format the keys are the
decimal string forms of the non-negative integer identifiers, so they are
modelled as `Nat`. -/
abbrev Store := List (Nat × QV)

/-- The `Quote` dataclass of `main.py`: identifier, text, author. -/
structure Quote where
  identifier : Nat
  quote : String
  author : String
deriving DecidableEq, Repr

/-- Python `k in d` on a dict: does the store hold the key `k`. -/
def hasKey (d : Store) (k : Nat) : Bool :=
  d.any (fun p => p.1 == k)

/-- Python `d[k] = v` on a dict: replace the value at an existing key in
place, or append a fresh key at the end. -/
def setKey (d : Store) (k : Nat) (v : QV) : Store :=
  if hasKey d k then d.map (fun p => if p.1 == k then (k, v) else p)
  else d ++ [(k, v)]

/-- Python `del d[k]` on a dict with the key present: drop the entry. -/
def delKey (d : Store) (k : Nat) : Store :=
  d.filter (fun p => !(p.1 == k))

/-- The `load_quotes` list comprehension of `main.py` (lines 149-154):
one `Quote` per key of the parsed store contents, in iteration order,
using the key as the identifier. -/
def load_quotes (contents : Store) : List Quote :=
  contents.map (fun p => ⟨p.1, p.2.quote, p.2.author⟩)

/-- The `random_quote` function of `main.py` (lines 157-159): on a non-empty
collection, `random.choice` picks one element; on an empty collection the
function falls off the end and returns `None`. The randomness is modelled by
the extra parameter `r`: `random.choice` returns the element at some index,
here `r % length`. -/
def random_quote (r : Nat) (quotes : List Quote) : Option Quote :=
  if quotes.length ≠ 0 then quotes.get? (r % quotes.length) else none

/-- The `query_quote` function of `main.py` (lines 232-247). When an
identifier is given, a linear scan returns the first quote whose identifier
compares equal numerically; note that when the scan finds no match the code
falls through to the author test rather than returning. The author branch
collects the quotes whose author equals the given string and picks one with
`random_quote`. -/
def query_quote (r : Nat) (quotes : List Quote)
    (quote_identifier : Option Nat) (quote_author : Option String) :
    Option Quote :=
  let fromId : Option Quote :=
    match quote_identifier with
    | some qid => quotes.find? (fun q => q.identifier == qid)
    | none => none
  match fromId with
  | some q => some q
  | none =>
    match quote_author with
    | some a => random_quote r (quotes.filter (fun q => q.author == a))
    | none => none

/-- Helper for `get_duplicate_quotes`: the loop of `main.py` lines 193-196
with the `seen_quotes` accumulator made explicit. A quote is emitted when its
text is already in `seen_quotes`; every text is appended to `seen_quotes`. -/
def gdq (seen : List String) : List Quote → List Quote
  | [] => []
  | q :: rest =>
      (if seen.contains q.quote then [q] else []) ++ gdq (seen ++ [q.quote]) rest

/-- The `get_duplicate_quotes` function of `main.py` (lines 189-197). -/
def get_duplicate_quotes (quotes : List Quote) : List Quote :=
  gdq [] quotes

/-- Result of `read_pruned_quotes`: either the sentinel string
`"No duplicates found"` or the reduced store contents. -/
inductive PruneResult where
  | noDuplicates
  | pruned (d : Store)
deriving DecidableEq, Repr

/-- The deletion loop of `read_pruned_quotes` (lines 226-228): delete each
duplicate's identifier key from the dict in order. Python's `del` raises
`KeyError` when the key is absent, modelled as `none`. -/
def delDups (d : Store) : List Quote → Option Store
  | [] => some d
  | q :: rest =>
      if hasKey d q.identifier then delDups (delKey d q.identifier) rest
      else none

/-- The `read_pruned_quotes` function of `main.py` (lines 215-229).
`fileStore` is the contents of the default quote file `QUOTE_FILE`, which the
function reloads itself via `load_quotes()`; `quotes_dict` is the dict
argument. When no duplicates are found in the reloaded list the sentinel is
returned; otherwise each duplicate's identifier key is deleted from
`quotes_dict`. -/
def read_pruned_quotes (fileStore : Store) (quotes_dict : Store) :
    Option PruneResult :=
  let duplicate_quotes := get_duplicate_quotes (load_quotes fileStore)
  if duplicate_quotes.isEmpty then some PruneResult.noDuplicates
  else (delDups quotes_dict duplicate_quotes).map PruneResult.pruned

/-- State of one file on disk: missing, present but empty, present with a
parsed JSON object, or present with malformed contents. -/
inductive FileState where
  | absent
  | emptyFile
  | json (s : Store)
  | malformed
deriving DecidableEq, Repr

/-- The `read_json` function of `main.py` (lines 138-146): a missing file is
created empty and `{}` is returned; an existing empty file yields `{}`
without a write; otherwise the contents are parsed, and `json.loads` raises
on malformed input (modelled as `none`). The returned pair is the parsed
contents together with the file's state after the call. -/
def read_json : FileState → Option (Store × FileState)
  | FileState.absent => some ([], FileState.emptyFile)
  | FileState.emptyFile => some ([], FileState.emptyFile)
  | FileState.json s => some (s, FileState.json s)
  | FileState.malformed => none

/-- Name of a file the program touches: the default `QUOTE_FILE`
(`quotes.json`) or the custom path passed with `--file`. -/
inductive FileName where
  | defaultFile
  | customFile
deriving DecidableEq, Repr

/-- The files visible to the program: the default quote file and the custom
`--file` path. -/
structure FS where
  defF : FileState
  custF : FileState
deriving DecidableEq, Repr

/-- Contents of the named file. -/
def FS.get (fs : FS) : FileName → FileState
  | FileName.defaultFile => fs.defF
  | FileName.customFile => fs.custF

/-- Overwrite the named file. -/
def FS.set (fs : FS) : FileName → FileState → FS
  | FileName.defaultFile, st => ⟨st, fs.custF⟩
  | FileName.customFile, st => ⟨fs.defF, st⟩

/-- The `add_quote` function of `main.py` (lines 162-170): build the quote,
reload the contents of the `file` argument, insert the new quote under its
identifier, then write -- to the literal `QUOTE_FILE`, not to the `file`
argument (line 168). -/
def add_quote (quote author : String) (identifier : Nat) (file : FileName)
    (fs : FS) : Option FS :=
  match read_json (fs.get file) with
  | none => none
  | some (file_contents, fstate) =>
      let fs1 := fs.set file fstate
      let contents := setKey file_contents identifier ⟨quote, author⟩
      some (fs1.set FileName.defaultFile (FileState.json contents))

/-- The `prune` branch of `main` (lines 288-326): `main` first runs
`load_quotes()` on the default file, then calls
`read_pruned_quotes(read_json(file=quote_file))`, whose inner `load_quotes()`
reads the default file again; when the result is a dict it is written with
`write_pruned_quotes`, whose `file` parameter keeps its default `QUOTE_FILE`;
when it is the sentinel string only a message is printed and nothing is
written. `none` models an uncaught exception (malformed JSON or `KeyError`). -/
def prune_command (file : FileName) (fs : FS) : Option FS :=
  match read_json (fs.get FileName.defaultFile) with
  | none => none
  | some (_, st0) =>
    let fs0 := fs.set FileName.defaultFile st0
    match read_json (fs0.get file) with
    | none => none
    | some (argContents, st1) =>
      let fs1 := fs0.set file st1
      match read_json (fs1.get FileName.defaultFile) with
      | none => none
      | some (defContents, st2) =>
        let fs2 := fs1.set FileName.defaultFile st2
        match read_pruned_quotes defContents argContents with
        | none => none
        | some PruneResult.noDuplicates => some fs2
        | some (PruneResult.pruned d) =>
            some (fs2.set FileName.defaultFile (FileState.json d))

/-- Serialization of a collection of quotes back to store contents, keyed by
identifier. Modelled from the spec: the source has no function that
serializes a `list[Quote]` (its writers dump an already-built dict), and the
spec says `save(collection of Quote)` "serializes the full collection back to
the file, keyed by identifier", each quote stored under the decimal string of
its identifier with its text and author. -/
def save_quotes (quotes : List Quote) : Store :=
  quotes.map (fun q => (q.identifier, ⟨q.quote, q.author⟩))

/-- The characterization of duplicate detection used by the specification:
the quotes at each position whose text occurs among the strictly earlier
quotes of the list, in order. -/
def duplicatesByEarlierText (qs : List Quote) : List Quote :=
  qs.enum.filterMap (fun p =>
    if ((qs.take p.1).map Quote.quote).contains p.2.quote then some p.2
    else none)

/-- C1, counterexample: on the collection holding the single quote
`#0 "q" by A`, a query with identifier `5` (matching no quote) and author
`"A"` does not return empty: the scan falls through to the author branch and
returns quote `#0`, refuting "returns empty when no quote matches" and "the
author argument is only consulted when the identifier argument is absent". -/
theorem query_quote_id_miss_author_cex :
    query_quote 0 [⟨0, "q", "A"⟩] (some 5) (some "A") = some ⟨0, "q", "A"⟩ ∧
    query_quote 0 [⟨0, "q", "A"⟩] (some 5) (some "A") ≠ none := by
  decide

/-- C1, amended: when an identifier is given, `query_quote` returns the first
quote whose identifier numerically equals it, independent of the author
argument (identifier lookup takes precedence); when no quote matches the
identifier, the call behaves exactly as a call without an identifier: the
author branch is consulted if an author is given, and only otherwise is the
result empty. -/
theorem query_quote_id_precedence (r : Nat) (qs : List Quote) (i : Nat)
    (a : Option String) :
    query_quote r qs (some i) a =
      match qs.find? (fun q => q.identifier == i) with
      | some q => some q
      | none => query_quote r qs none a := by
  cases h : qs.find? (fun q => q.identifier == i) <;>
    simp [query_quote, h]

/-- C2: on the store mapping key 0 to quote "Hi" by A and key 1 to quote
"Hi" by B, duplicate detection returns exactly the quote with identifier 1,
and `read_pruned_quotes` removes exactly key 1 from the store contents,
leaving only the entry under key 0. -/
theorem dedup_prune_concrete_scenario :
    get_duplicate_quotes
        (load_quotes [(0, ⟨"Hi", "A"⟩), (1, ⟨"Hi", "B"⟩)]) =
      [⟨1, "Hi", "B"⟩] ∧
    read_pruned_quotes [(0, ⟨"Hi", "A"⟩), (1, ⟨"Hi", "B"⟩)]
        [(0, ⟨"Hi", "A"⟩), (1, ⟨"Hi", "B"⟩)] =
      some (PruneResult.pruned [(0, ⟨"Hi", "A"⟩)]) := by
  decide

/-- C4: evaluation of `add_quote` at the failing input. With both the default
file and the custom `--file` path holding empty stores, adding quote "t" by
"A" under identifier 0 through the custom path leaves the custom file
unchanged and writes the extended mapping to the default file instead: the
custom path is read from but not written to. -/
theorem add_quote_writes_default_file :
    add_quote "t" "A" 0 FileName.customFile
        ⟨FileState.json [], FileState.json []⟩ =
      some ⟨FileState.json [(0, ⟨"t", "A"⟩)], FileState.json []⟩ := by
  decide

/-- C8: loading from an absent store file yields the empty contents and
creates the file (the state after the call is an existing empty file), and
loading from an empty file also yields the empty contents; in both cases the
read succeeds rather than erroring, and the empty contents load to the empty
collection of quotes. -/
theorem load_absent_or_empty_store :
    read_json FileState.absent = some ([], FileState.emptyFile) ∧
    read_json FileState.emptyFile = some ([], FileState.emptyFile) ∧
    load_quotes [] = [] := by
  exact ⟨rfl, rfl, rfl⟩

/-- C9: for every store mapping, loading it into a collection of quotes and
serializing that collection back, each quote keyed by its identifier with its
text and author, reproduces exactly the original mapping. -/
theorem save_load_roundtrip (s : Store) : save_quotes (load_quotes s) = s := by
  simp only [save_quotes, load_quotes, List.map_map]
  exact List.map_id s

theorem gdq_spec_general (l : List Quote) : ∀ pre : List Quote,
    gdq (pre.map Quote.quote) l =
      (List.enumFrom pre.length l).filterMap (fun p =>
        if (((pre ++ l).take p.1).map Quote.quote).contains p.2.quote
        then some p.2 else none) := by
  induction l with
  | nil => intro pre; rfl
  | cons q rest ih =>
    intro pre
    have hseen : pre.map Quote.quote ++ [q.quote] =
        (pre ++ [q]).map Quote.quote := by simp
    rw [gdq, hseen, ih (pre ++ [q]), List.enumFrom_cons, List.filterMap_cons]
    have hassoc : (pre ++ [q]) ++ rest = pre ++ q :: rest := by
      rw [List.append_assoc, List.singleton_append]
    have hlen : (pre ++ [q]).length = pre.length + 1 := by simp
    rw [hassoc, hlen]
    have htake : (pre ++ q :: rest).take pre.length = pre :=
      List.take_left pre (q :: rest)
    rw [htake]
    cases h : (pre.map Quote.quote).contains q.quote <;> simp [h]

theorem gdq_eq_nil_of_nodup (l : List Quote) : ∀ seen : List String,
    (∀ q ∈ l, q.quote ∉ seen) → ((l.map Quote.quote)).Nodup →
    gdq seen l = [] := by
  induction l with
  | nil => intro seen _ _; rfl
  | cons q rest ih =>
    intro seen hseen hnodup
    have hhead : q.quote ∉ rest.map Quote.quote ∧
        (rest.map Quote.quote).Nodup := by
      rw [List.map_cons, List.nodup_cons] at hnodup
      exact hnodup
    have hq : q.quote ∉ seen := hseen q (List.mem_cons_self q rest)
    have hc : seen.contains q.quote = false := by simp [hq]
    rw [gdq, hc]
    simp only [Bool.false_eq_true, if_false, List.nil_append]
    apply ih
    · intro p hp
      simp only [List.mem_append, List.mem_singleton]
      rintro (h | h)
      · exact hseen p (List.mem_cons_of_mem _ hp) h
      · exact hhead.1 (h ▸ List.mem_map_of_mem Quote.quote hp)
    · exact hhead.2

/-- C3: duplicate detection returns, in order, exactly the quotes for which
some strictly earlier quote in the list has equal text (authors ignored); in
particular, on texts A, B, A, A, C only the second and third occurrences of A
are returned, never the first occurrence of any text. -/
theorem get_duplicate_quotes_characterization :
    (∀ qs : List Quote, get_duplicate_quotes qs = duplicatesByEarlierText qs) ∧
    get_duplicate_quotes
        [⟨0, "A", "u"⟩, ⟨1, "B", "u"⟩, ⟨2, "A", "u"⟩, ⟨3, "A", "u"⟩,
         ⟨4, "C", "u"⟩] =
      [⟨2, "A", "u"⟩, ⟨3, "A", "u"⟩] := by
  constructor
  · intro qs
    have h := gdq_spec_general qs []
    simpa [get_duplicate_quotes, duplicatesByEarlierText, List.enum] using h
  · decide

/-- C5: on a store whose quotes have pairwise distinct texts,
`read_pruned_quotes` returns the sentinel rather than reduced contents, and
the whole `prune` command leaves every file exactly as it was: no write is
performed. -/
theorem prune_no_duplicates_noop (file : FileName) (fs : FS) (s d : Store)
    (hdef : fs.defF = FileState.json s)
    (harg : fs.get file = FileState.json d)
    (hnodup : ((load_quotes s).map Quote.quote).Nodup) :
    read_pruned_quotes s d = some PruneResult.noDuplicates ∧
    prune_command file fs = some fs := by
  have hdup : get_duplicate_quotes (load_quotes s) = [] :=
    gdq_eq_nil_of_nodup (load_quotes s) [] (by intro q _; simp) hnodup
  have h1 : read_pruned_quotes s d = some PruneResult.noDuplicates := by
    simp [read_pruned_quotes, hdup]
  refine ⟨h1, ?_⟩
  obtain ⟨df, cf⟩ := fs
  simp only at hdef
  subst hdef
  cases file with
  | defaultFile =>
    simp only [FS.get] at harg
    injection harg with hd
    subst hd
    simp [prune_command, read_json, FS.get, FS.set, read_pruned_quotes, hdup]
  | customFile =>
    simp only [FS.get] at harg
    subst harg
    simp [prune_command, read_json, FS.get, FS.set, read_pruned_quotes, hdup]

/-- Closed instance of C5 at a concrete two-quote store with distinct texts
and an empty custom file, discharging every hypothesis of
`prune_no_duplicates_noop`. -/
theorem prune_no_duplicates_noop_witness :
    read_pruned_quotes [(0, ⟨"a", "A"⟩), (1, ⟨"b", "B"⟩)] [] =
      some PruneResult.noDuplicates ∧
    prune_command FileName.customFile
        ⟨FileState.json [(0, ⟨"a", "A"⟩), (1, ⟨"b", "B"⟩)],
         FileState.json []⟩ =
      some ⟨FileState.json [(0, ⟨"a", "A"⟩), (1, ⟨"b", "B"⟩)],
        FileState.json []⟩ :=
  prune_no_duplicates_noop FileName.customFile _ _ _ rfl rfl (by decide)

/-- C6: a query with only the author set returns some quote of the
collection whose author exactly equals the given string whenever at least one
such quote exists, and returns empty when none exists, for every choice of
the random pick. -/
theorem query_quote_author_only (r : Nat) (qs : List Quote) (a : String) :
    ((∃ q ∈ qs, q.author = a) →
      ∃ q, query_quote r qs none (some a) = some q ∧ q ∈ qs ∧ q.author = a) ∧
    ((∀ q ∈ qs, q.author ≠ a) → query_quote r qs none (some a) = none) := by
  have hq : query_quote r qs none (some a) =
      random_quote r (qs.filter (fun q => q.author == a)) := rfl
  constructor
  · rintro ⟨q0, hq0, ha0⟩
    have hmem : q0 ∈ qs.filter (fun q => q.author == a) :=
      List.mem_filter.mpr ⟨hq0, by simp [ha0]⟩
    have hlen : (qs.filter (fun q => q.author == a)).length ≠ 0 := by
      intro h0
      rw [List.length_eq_zero] at h0
      exact absurd (h0 ▸ hmem) (List.not_mem_nil q0)
    have hlt : r % (qs.filter (fun q => q.author == a)).length <
        (qs.filter (fun q => q.author == a)).length :=
      Nat.mod_lt _ (Nat.pos_of_ne_zero hlen)
    have hmem2 : (qs.filter (fun q => q.author == a)).get
        ⟨r % (qs.filter (fun q => q.author == a)).length, hlt⟩ ∈
        qs.filter (fun q => q.author == a) := List.get_mem _ _ _
    refine ⟨_, ?_, (List.mem_filter.mp hmem2).1, ?_⟩
    · rw [hq]; simp [random_quote, hlen, List.get?_eq_get hlt]
    · have := (List.mem_filter.mp hmem2).2
      simpa using this
  · intro hnone
    have hsel : qs.filter (fun q => q.author == a) = [] := by
      apply List.filter_eq_nil_iff.mpr
      intro q hq'
      simp [hnone q hq']
    rw [hq, hsel]
    simp [random_quote]

/-- Closed instance of C6: both the found case and the empty case of
`query_quote_author_only` at concrete one-quote collections. -/
theorem query_quote_author_only_witness :
    (∃ q, query_quote 0 [⟨0, "t", "A"⟩] none (some "A") = some q ∧
      q ∈ [(⟨0, "t", "A"⟩ : Quote)] ∧ q.author = "A") ∧
    query_quote 0 [⟨0, "t", "B"⟩] none (some "A") = none :=
  ⟨(query_quote_author_only 0 [⟨0, "t", "A"⟩] "A").1 ⟨⟨0, "t", "A"⟩, by decide, rfl⟩,
   (query_quote_author_only 0 [⟨0, "t", "B"⟩] "A").2 (by decide)⟩

/-- C7: the random pick returns an element of the collection whenever the
collection is non-empty, returns empty on the empty collection rather than
failing, and every element of the collection is returned for some choice of
the random index (the selection ranges over the whole collection). -/
theorem random_quote_spec :
    (∀ (r : Nat) (qs : List Quote), qs ≠ [] →
      ∃ q, random_quote r qs = some q ∧ q ∈ qs) ∧
    (∀ r : Nat, random_quote r [] = none) ∧
    (∀ (qs : List Quote) (q : Quote), q ∈ qs →
      ∃ r : Nat, random_quote r qs = some q) := by
  refine ⟨?_, ?_, ?_⟩
  · intro r qs h
    have hlen : qs.length ≠ 0 := by simpa [List.length_eq_zero] using h
    have hlt : r % qs.length < qs.length :=
      Nat.mod_lt _ (Nat.pos_of_ne_zero hlen)
    exact ⟨qs.get ⟨r % qs.length, hlt⟩,
      by simp [random_quote, hlen, List.get?_eq_get hlt],
      List.get_mem qs _ _⟩
  · intro r; simp [random_quote]
  · intro qs q hqmem
    obtain ⟨⟨i, hi⟩, rfl⟩ := List.mem_iff_get.mp hqmem
    have hlen : qs.length ≠ 0 := by omega
    have hmod : i % qs.length = i := Nat.mod_eq_of_lt hi
    exact ⟨i, by simp [random_quote, hlen, hmod, List.get?_eq_get hi]⟩

/-- Closed instance of C7: the non-empty case and the reachability case of
`random_quote_spec` at a concrete two-quote collection. -/
theorem random_quote_spec_witness :
    (∃ q, random_quote 5 [⟨0, "t", "A"⟩, ⟨1, "u", "B"⟩] = some q ∧
      q ∈ [(⟨0, "t", "A"⟩ : Quote), ⟨1, "u", "B"⟩]) ∧
    (∃ r : Nat, random_quote r [⟨0, "t", "A"⟩, ⟨1, "u", "B"⟩] =
      some ⟨1, "u", "B"⟩) :=
  ⟨random_quote_spec.1 5 [⟨0, "t", "A"⟩, ⟨1, "u", "B"⟩] (by decide),
   random_quote_spec.2.2 [⟨0, "t", "A"⟩, ⟨1, "u", "B"⟩] ⟨1, "u", "B"⟩
     (by decide)⟩

theorem delDups_eq (dups : List Quote) : ∀ d : Store,
    (∀ q ∈ dups, hasKey d q.identifier = true) →
    (dups.map Quote.identifier).Nodup →
    delDups d dups =
      some (d.filter (fun p =>
        !((dups.map Quote.identifier).contains p.1))) := by
  induction dups with
  | nil => intro d _ _; simp [delDups]
  | cons q rest ih =>
    intro d hkeys hnodup
    have hhead : q.identifier ∉ rest.map Quote.identifier ∧
        (rest.map Quote.identifier).Nodup := by
      rw [List.map_cons, List.nodup_cons] at hnodup
      exact hnodup
    have hk : hasKey d q.identifier = true :=
      hkeys q (List.mem_cons_self _ _)
    rw [delDups, if_pos hk]
    rw [ih (delKey d q.identifier) ?keys hhead.2]
    case keys =>
      intro p hp
      have hpk : hasKey d p.identifier = true :=
        hkeys p (List.mem_cons_of_mem _ hp)
      have hne : p.identifier ≠ q.identifier := by
        intro he
        exact hhead.1 (he ▸ List.mem_map_of_mem Quote.identifier hp)
      unfold hasKey at hpk ⊢
      unfold delKey
      rw [List.any_eq_true] at hpk ⊢
      obtain ⟨x, hx, hbeq⟩ := hpk
      have hx1 : x.1 = p.identifier := by simpa using hbeq
      refine ⟨x, List.mem_filter.mpr ⟨hx, ?_⟩, hbeq⟩
      simp [hx1, hne]
    congr 1
    unfold delKey
    rw [List.filter_filter]
    apply List.filter_congr
    intro p _
    rw [List.map_cons, List.contains_cons, Bool.not_or]
    exact Bool.and_comm _ _

/-- C10: `read_pruned_quotes` chooses the keys it deletes solely from the
quotes loaded from the default quote file, never from its dict argument:
whatever store contents `d` are passed in (for example those of a custom
`--file` path), the keys removed from `d` are exactly the identifiers of the
duplicates found in the default file's quote list. -/
theorem read_pruned_quotes_keys_from_default (fileStore d : Store)
    (hne : get_duplicate_quotes (load_quotes fileStore) ≠ [])
    (hkeys : ∀ q ∈ get_duplicate_quotes (load_quotes fileStore),
      hasKey d q.identifier = true)
    (hids : ((get_duplicate_quotes (load_quotes fileStore)).map
      Quote.identifier).Nodup) :
    read_pruned_quotes fileStore d =
      some (PruneResult.pruned (d.filter (fun p =>
        !(((get_duplicate_quotes (load_quotes fileStore)).map
          Quote.identifier).contains p.1)))) := by
  have hempty : (get_duplicate_quotes (load_quotes fileStore)).isEmpty =
      false := by
    cases h : get_duplicate_quotes (load_quotes fileStore) with
    | nil => exact absurd h hne
    | cons a l => rfl
  simp only [read_pruned_quotes, hempty, Bool.false_eq_true, if_false]
  rw [delDups_eq _ d hkeys hids]
  rfl

/-- Closed instance of C10: the default file holds a duplicated text under
keys 0 and 1, while the dict argument holds keys 1 and 2 with unrelated
contents; the key deleted from the dict is 1, the duplicate's identifier in
the default file. -/
theorem read_pruned_quotes_keys_from_default_witness :
    get_duplicate_quotes
        (load_quotes [(0, ⟨"Hi", "A"⟩), (1, ⟨"Hi", "B"⟩)]) ≠ [] ∧
    read_pruned_quotes [(0, ⟨"Hi", "A"⟩), (1, ⟨"Hi", "B"⟩)]
        [(1, ⟨"X", "C"⟩), (2, ⟨"Z", "D"⟩)] =
      some (PruneResult.pruned
        ([(1, ⟨"X", "C"⟩), (2, ⟨"Z", "D"⟩)].filter (fun p =>
          !(((get_duplicate_quotes
            (load_quotes [(0, ⟨"Hi", "A"⟩), (1, ⟨"Hi", "B"⟩)])).map
              Quote.identifier).contains p.1)))) :=
  ⟨by decide,
   read_pruned_quotes_keys_from_default
     [(0, ⟨"Hi", "A"⟩), (1, ⟨"Hi", "B"⟩)]
     [(1, ⟨"X", "C"⟩), (2, ⟨"Z", "D"⟩)]
     (by decide) (by decide) (by decide)⟩

end QuoteApp
